import Mathlib

/-!
Verification of the NSE delivery-percentage dashboard core
(src/app.py, src/backfill.py, src/fetch_and_upload.py).

The pandas/Streamlit pipeline is shallowly embedded: dataframe cells become
Value, a dataframe becomes a list of named columns (or a list of typed rows
where only a fixed schema is in play), pd.to_numeric(..., errors="coerce")
becomes an Option-Rat-valued parser, sort_values becomes the stable
List.insertionSort, and the Drive upload in backfill.py becomes whole-file
replacement. Rationals stand in for floats; NaN is Option.none.
-/

namespace StockDash

/-- A dataframe cell: a raw string, a parsed number, a parsed date
(abstract day index), or a missing value (NaN / None / NaT). -/
inductive Value where
  | vstr (s : String)
  | vnum (q : ℚ)
  | vdate (d : Nat)
  | vnull
deriving DecidableEq, Repr

/-- Whitespace as recognised by the strip method of Python strings. -/
def wsChar (c : Char) : Bool := c = ' ' || c = '\t' || c = '\n' || c = '\r'

/-- Strip leading and trailing whitespace from a character list
(the strip method of Python strings). -/
def trimChars (l : List Char) : List Char :=
  ((l.dropWhile wsChar).reverse.dropWhile wsChar).reverse

/-- Numeric value of a digit string, most significant digit first. -/
def digitsVal (l : List Char) : Nat :=
  l.foldl (fun a c => 10 * a + (c.toNat - 48)) 0

/-- Parse an optionally signed decimal literal after trimming whitespace,
the way the numeric parser underlying pd.to_numeric accepts plain decimal
text; anything else yields none. -/
def parseNum (s : String) : Option ℚ :=
  let core : List Char → Option (Nat × Nat) := fun u =>
    let ip := u.takeWhile Char.isDigit
    let rest := u.drop ip.length
    match rest with
    | [] => if ip.isEmpty then none else some (digitsVal ip, 1)
    | '.' :: fp =>
        if fp.all Char.isDigit && !(ip.isEmpty && fp.isEmpty) then
          some (digitsVal ip * 10 ^ fp.length + digitsVal fp, 10 ^ fp.length)
        else none
    | _ => none
  match trimChars s.toList with
  | '-' :: r => (core r).map (fun p => mkRat (-(p.1 : Int)) p.2)
  | '+' :: r => (core r).map (fun p => mkRat p.1 p.2)
  | r => (core r).map (fun p => mkRat p.1 p.2)

/-- pd.to_numeric(v, errors="coerce") (src/app.py lines 161, 182-186, 298-299):
numbers pass through, strings are parsed, datetimes convert to their numeric
index, and any unparseable or missing value coerces to null (none) instead
of raising. -/
def to_numeric : Value → Option ℚ
  | .vstr s => parseNum s
  | .vnum q => some q
  | .vdate d => some (d : ℚ)
  | .vnull => none

/-- clean_column_names (src/app.py lines 50-52) and the header cleaning in
src/backfill.py line 63: drop every double-quote character, then strip
surrounding whitespace. -/
def cleanName (s : String) : String :=
  ⟨trimChars (s.toList.filter (fun c => c ≠ '"'))⟩

/-- Bool test for needle being a prefix of hay (character lists). -/
def leadsWith : List Char → List Char → Bool
  | [], _ => true
  | _ :: _, [] => false
  | a :: as, b :: bs => a = b && leadsWith as bs

/-- Bool test for needle occurring contiguously inside hay: the Python
substring test (needle in hay). -/
def occursIn (needle : List Char) : List Char → Bool
  | [] => needle.isEmpty
  | c :: t => leadsWith needle (c :: t) || occursIn needle t

/-- The Python membership test on strings: sub in s. -/
def strHasSub (hay needle : String) : Bool := occursIn needle.toList hay.toList

/-- First fuzzy rule of src/app.py line 157: the header contains DELIV
together with PER or a literal percent sign. -/
def delivPerRule (c : String) : Bool :=
  strHasSub c "DELIV" && (strHasSub c "PER" || strHasSub c "%")

/-- Fallback rule of src/app.py line 158: the header contains a literal
percent sign. -/
def pctRule (c : String) : Bool := strHasSub c "%"

/-- Resolution of the delivery-percent column on the daily dataset
(src/app.py lines 157-158): first header matching delivPerRule, else first
header containing a percent sign, else none. -/
def daily_deliv_col (cols : List String) : Option String :=
  match cols.find? delivPerRule with
  | some c => some c
  | none => cols.find? pctRule

/-- The resolver as the specification words it (for comparison with
daily_deliv_col): an exact known name first; then a header with a delivery
marker and a percent marker or percent sign; then the first header with a
delivery-quantity marker; if none match, a structured error carrying the
actual header list. -/
def resolveDelivSpec (cols : List String) : Except (List String) String :=
  match cols.find? (fun c => c = "DELIV_PER" || c = "DELIVERY_PER") with
  | some c => Except.ok c
  | none =>
    match cols.find? delivPerRule with
    | some c => Except.ok c
    | none =>
      match cols.find? (fun c => strHasSub c "DELIV_QTY" || strHasSub c "DlyQt") with
      | some c => Except.ok c
      | none => Except.error cols

/-- A row of the analysis table: symbol and average delivery percent
(none models NaN). -/
abbrev ARow := String × Option ℚ

/-- The strict filtration of src/app.py lines 208-211: the average lies in
the closed interval from 80 to 98; a NaN average compares false. -/
def inBucket (r : ARow) : Bool :=
  match r.2 with
  | some q => decide ((80 : ℚ) ≤ q) && decide (q ≤ (98 : ℚ))
  | none => false

/-- Sort key of sort_values("Avg_Delivery", ascending=False): descending by
average (NaN reads as 0 only through getD, which never fires on bucket rows
since NaN rows are filtered out first). -/
def avgDesc (a b : ARow) : Prop := b.2.getD 0 ≤ a.2.getD 0

instance : DecidableRel avgDesc := fun a b =>
  inferInstanceAs (Decidable (b.2.getD 0 ≤ a.2.getD 0))

instance : IsTotal ARow avgDesc := ⟨fun a b => le_total _ _⟩

instance : IsTrans ARow avgDesc := ⟨fun _ _ _ h1 h2 => le_trans h2 h1⟩

/-- filtered_df (src/app.py lines 208-211): keep rows whose average is in
the 80-98 band, then sort descending by the average (single sort key; a
stable sort models the deterministic pandas computation). -/
def filtered_df (rows : List ARow) : List ARow :=
  List.insertionSort avgDesc (rows.filter inBucket)

/-- Value of a named cell in a raw row, missing cells reading as null. -/
def cellValue (cells : List (String × Value)) (col : String) : Value :=
  ((cells.find? (fun c => c.1 = col)).map (fun c => c.2)).getD .vnull

/-- Daily delivery value after line 161 of src/app.py:
pd.to_numeric(..., errors="coerce").fillna(0). -/
def dailyDeliv (v : Value) : ℚ := (to_numeric v).getD 0

/-- A raw daily dataframe: cleaned headers plus rows carrying the symbol and
the named cells. -/
structure RawDf where
  headers : List String
  rows : List (String × List (String × Value))
deriving DecidableEq

/-- What the daily branch of the dashboard does after resolving the
delivery column: nothing at all when resolution fails, otherwise the
filtered table. -/
inductive DailyOutcome where
  | skipped
  | rendered (out : List ARow)
deriving DecidableEq

/-- The daily (Last 1 Day) path of src/app.py lines 157-211: resolve the
delivery column; if resolution fails the whole block guarded by
if daily_deliv_col: is skipped with no error; otherwise coerce and
zero-fill the column and apply the 80-98 filtration. -/
def dailyBranch (df : RawDf) : DailyOutcome :=
  match daily_deliv_col df.headers with
  | none => .skipped
  | some col =>
      .rendered (filtered_df (df.rows.map
        (fun r => (r.1, some (dailyDeliv (cellValue r.2 col))))))

/-- A canonical history row: symbol, trade date (abstract day index),
delivery percent (none models NaN after coercion). -/
structure HRow where
  symbol : String
  tradeDate : Nat
  delivPer : Option ℚ
deriving DecidableEq, Repr

/-- Sort key of sort_values(["SYMBOL", "Trade_Date"]) within one symbol:
ascending by trade date. -/
def dateAsc (a b : HRow) : Prop := a.tradeDate ≤ b.tradeDate

instance : DecidableRel dateAsc := fun a b => Nat.decLe _ _

instance : IsTotal HRow dateAsc := ⟨fun a b => Nat.le_total _ _⟩

instance : IsTrans HRow dateAsc := ⟨fun _ _ _ h1 h2 => le_trans h1 h2⟩

/-- The per-symbol view of the sorted history (src/app.py line 178 plus the
grouping on line 195): the rows of one symbol, ascending by trade date. -/
def symbolRows (hist : List HRow) (s : String) : List HRow :=
  List.insertionSort dateAsc (hist.filter (fun r => r.symbol = s))

/-- The last n elements of a list. -/
def takeLast (n : Nat) (l : List α) : List α := l.drop (l.length - n)

/-- groupby("SYMBOL").tail(days) (src/app.py line 195): the last days ROWS
of the per-symbol date-sorted view. -/
def symbolWindow (hist : List HRow) (s : String) (days : Nat) : List HRow :=
  takeLast days (symbolRows hist s)

/-- The pandas mean with skipna: arithmetic mean of the non-null values,
none when every value is null. -/
def meanOpt (l : List (Option ℚ)) : Option ℚ :=
  if (l.filterMap id).isEmpty then none
  else some ((l.filterMap id).sum / ((l.filterMap id).length : ℚ))

/-- The trailing average DELIV_PER of one symbol over the window
(src/app.py lines 192-196). -/
def trailingAvg (hist : List HRow) (s : String) (days : Nat) : Option ℚ :=
  meanOpt ((symbolWindow hist s days).map HRow.delivPer)

/-- The most recent n distinct trade dates of a symbol, ascending: what the
specification says the window should range over. -/
def mostRecentDistinctDates (hist : List HRow) (s : String) (n : Nat) : List Nat :=
  takeLast n ((symbolRows hist s).map HRow.tradeDate).dedup

/-- A history dataframe for the normalizer: named columns of cell lists. -/
abbrev Df := List (String × List Value)

/-- The header list of a dataframe. -/
def headersOf (df : Df) : List String := df.map (fun c => c.1)

/-- clean_column_names applied to every header (src/app.py line 87). -/
def cleanCols (df : Df) : Df := df.map (fun c => (cleanName c.1, c.2))

/-- Column access by name (first match). -/
def findCol (df : Df) (n : String) : Option (String × List Value) :=
  df.find? (fun c => c.1 = n)

/-- Column membership test (name in df.columns). -/
def hasCol (df : Df) (n : String) : Bool := df.any (fun c => c.1 = n)

/-- Column assignment df[n] = v: replace the first column named n, or
append a new column at the end as pandas does. -/
def setCol : Df → String → List Value → Df
  | [], n, v => [(n, v)]
  | c :: t, n, v => if c.1 = n then (n, v) :: t else c :: setCol t n v

/-- Month-name abbreviations accepted in date text. -/
def monthNum (m : List Char) : Option Nat :=
  if m = ['J', 'a', 'n'] then some 1
  else if m = ['F', 'e', 'b'] then some 2
  else if m = ['M', 'a', 'r'] then some 3
  else if m = ['A', 'p', 'r'] then some 4
  else if m = ['M', 'a', 'y'] then some 5
  else if m = ['J', 'u', 'n'] then some 6
  else if m = ['J', 'u', 'l'] then some 7
  else if m = ['A', 'u', 'g'] then some 8
  else if m = ['S', 'e', 'p'] then some 9
  else if m = ['O', 'c', 't'] then some 10
  else if m = ['N', 'o', 'v'] then some 11
  else if m = ['D', 'e', 'c'] then some 12
  else none

/-- Nonempty all-digit test. -/
def allDigits (l : List Char) : Bool := l.all Char.isDigit && !l.isEmpty

/-- Pack a year-month-day triple into one abstract day index. -/
def packDate (y m d : Nat) : Nat := y * 512 + m * 32 + d

/-- Model of the date texts pd.to_datetime accepts here: ISO
year-month-day, or day-month-year with a numeric or abbreviated month,
separated by dashes or slashes; anything else fails. -/
def parseDateStr (s : String) : Option Nat :=
  match (trimChars s.toList).splitOnP (fun c => c = '-' || c = '/') with
  | [a, b, c] =>
      if allDigits a && a.length = 4 && allDigits b && allDigits c then
        some (packDate (digitsVal a) (digitsVal b) (digitsVal c))
      else if allDigits a && allDigits c && c.length = 4 then
        match (if allDigits b then some (digitsVal b) else monthNum b) with
        | some m => some (packDate (digitsVal c) m (digitsVal a))
        | none => none
      else none
  | _ => none

/-- pd.to_datetime(v, errors="coerce") on one cell (src/app.py line 90):
already-parsed dates are fixed, strings parse or become null, numbers read
as a day index, nulls stay null. -/
def parseDateVal : Value → Value
  | .vstr s =>
      match parseDateStr s with
      | some d => .vdate d
      | none => .vnull
  | .vnum q => .vdate q.num.toNat
  | .vdate d => .vdate d
  | .vnull => .vnull

/-- The date-column candidates of src/app.py line 89. -/
def dateCandidates : List String := ["Trade_Date", "DATE1", "Date"]

/-- pd.to_datetime(df[dc], errors="coerce"): the named column, coerced
cell by cell. -/
def parsedColOf (df : Df) (dc : String) : List Value :=
  (((findCol df dc).map (fun c => c.2)).getD []).map parseDateVal

/-- src/app.py lines 89-90: locate the first date-column candidate present
and assign Trade_Date to its coerced values; do nothing when none is
present. -/
def dateStep (df : Df) : Df :=
  match dateCandidates.find? (hasCol df) with
  | none => df
  | some dc => setCol df "Trade_Date" (parsedColOf df dc)

/-- src/app.py lines 92-96: locate the first candidate present and rename
every column bearing that name to the target. -/
def renameStep (df : Df) (cands : List String) (target : String) : Df :=
  match cands.find? (hasCol df) with
  | none => df
  | some cc => df.map (fun c => (if c.1 = cc then target else c.1, c.2))

/-- The schema normalization of load_history_data (src/app.py lines 87-96):
clean headers, resolve and coerce the date column, rename the close-price
column, rename the delivery-percent column. -/
def load_history_normalize (df : Df) : Df :=
  renameStep
    (renameStep (dateStep (cleanCols df)) ["CLOSE_PR", "CLOSE_PRICE"] "CLOSE_PRICE")
    ["DELIV_PER", "DELIVERY_PER"] "DELIV_PER"

/-- src/app.py line 263: the search ticker text is uppercased then
stripped before lookup. -/
def searchNormalize (s : String) : String :=
  ⟨trimChars (s.toList.map Char.toUpper)⟩

/-- src/app.py line 266: exact-match filter of the daily rows on the
SYMBOL column. -/
def lookupDaily (rows : List ARow) (t : String) : List ARow :=
  rows.filter (fun r => r.1 = t)

/-- A backfill archive row: symbol and the stamped trade date (none would
mean a missing date stamp). -/
structure BRow where
  symbol : String
  tradeDate : Option Nat
deriving DecidableEq, Repr

/-- Stamp one fetched day of symbols with its date
(src/backfill.py line 41). -/
def stampRows (symbols : List String) (d : Nat) : List BRow :=
  symbols.map (fun s => ⟨s, some d⟩)

/-- The in-run merge of src/backfill.py line 44:
pd.concat([full_data, df]) is plain appending. -/
def mergeConcat (archive snap : List BRow) : List BRow := archive ++ snap

/-- The fetch loop of src/backfill.py lines 28-56 ranging over the given
dates: fetch each date (an empty list models a holiday or an error), stamp
the rows, append. -/
def backfillRows (fetch : Nat → List String) (dates : List Nat) : List BRow :=
  dates.flatMap (fun d => stampRows (fetch d) d)

/-- The Drive upload of src/backfill.py lines 78-99: files().update replaces
the stored file content wholesale, so the published archive is exactly the
freshly built data, whatever was stored before. -/
def publishReplace (_prev incoming : List BRow) : List BRow := incoming

/-- The dates the backfill loop requests (src/backfill.py lines 21-31):
every day from 365 days ago through today whose weekday is Monday to
Friday; day indices are chosen so that d % 7 is the Python weekday. -/
def requestedDates (today : Nat) : List Nat :=
  (List.range 366).filterMap
    (fun i => if (today - 365 + i) % 7 < 5 then some (today - 365 + i) else none)

/-- One whole backfill run: fetch and stamp every requested weekday. -/
def backfillRun (fetch : Nat → List String) (today : Nat) : List BRow :=
  backfillRows fetch (requestedDates today)

/-- The (symbol, tradeDate) key multiset of an archive. -/
def keysOf (l : List BRow) : List (String × Option Nat) :=
  l.map (fun r => (r.symbol, r.tradeDate))

/-! ## Shared lemmas about the filtration -/

lemma mem_filtered_df {rows : List ARow} {r : ARow} :
    r ∈ filtered_df rows ↔ r ∈ rows ∧ inBucket r = true := by
  unfold filtered_df
  rw [(List.perm_insertionSort avgDesc (rows.filter inBucket)).mem_iff, List.mem_filter]

lemma pairwise_filtered_df (rows : List ARow) :
    (filtered_df rows).Pairwise avgDesc :=
  List.sorted_insertionSort avgDesc (rows.filter inBucket)

/-! ## C5: totality of numeric coercion -/

/-- C5: numeric coercion is total and never raises; the five sample raw
values "12.5", " 7 ", "N/A", "" and None coerce to 12.5, 7.0, null, null
and null respectively (to_numeric is a total function into Option, so no
input can raise). -/
theorem c5_coercion_examples :
    to_numeric (.vstr "12.5") = some (25 / 2 : ℚ) ∧
    to_numeric (.vstr " 7 ") = some 7 ∧
    to_numeric (.vstr "N/A") = none ∧
    to_numeric (.vstr "") = none ∧
    to_numeric .vnull = none := by
  refine ⟨?_, by decide, by decide, by decide, rfl⟩
  have h : to_numeric (.vstr "12.5") = some (mkRat 125 10) := by decide
  rw [h]
  norm_num [mkRat]

/-! ## C1: resolution of the daily delivery-percent column -/

/-- C1 counterexample: on headers SYMBOL, DELIV_QTY the resolution order the
claim describes would resolve the delivery-quantity header (and on a total
miss would signal an error), but the code resolves nothing and the daily
branch is silently skipped with no error of any kind. -/
theorem c1_resolution_counterexample :
    daily_deliv_col ["SYMBOL", "DELIV_QTY"] = none ∧
    resolveDelivSpec ["SYMBOL", "DELIV_QTY"] = Except.ok "DELIV_QTY" ∧
    dailyBranch ⟨["SYMBOL", "DELIV_QTY"], [("RELIANCE", [("DELIV_QTY", .vnum 90)])]⟩
      = .skipped := by
  refine ⟨by decide, rfl, by decide⟩

/-- C1 (amended): the daily path resolves the delivery column by trying, in
order, any header containing DELIV together with PER or a percent sign, and
then any header containing a percent sign; there is no exact-name step and
no delivery-quantity fallback, and when nothing matches no error is
signalled: resolution yields none exactly when no header matches either
rule, and then the whole daily analysis is silently skipped. -/
theorem c1_daily_resolution (df : RawDf) :
    (daily_deliv_col df.headers = none ↔
      ∀ c ∈ df.headers, delivPerRule c = false ∧ pctRule c = false) ∧
    (daily_deliv_col df.headers = none → dailyBranch df = .skipped) := by
  constructor
  · constructor
    · intro h c hc
      unfold daily_deliv_col at h
      cases hf : df.headers.find? delivPerRule with
      | some x => rw [hf] at h; exact absurd h (by simp)
      | none =>
        rw [hf] at h
        have h2 : df.headers.find? pctRule = none := h
        exact ⟨Bool.eq_false_iff.mpr (List.find?_eq_none.mp hf c hc),
          Bool.eq_false_iff.mpr (List.find?_eq_none.mp h2 c hc)⟩
    · intro h
      unfold daily_deliv_col
      rw [List.find?_eq_none.mpr (fun x hx => by simp [(h x hx).1])]
      show df.headers.find? pctRule = none
      exact List.find?_eq_none.mpr (fun x hx => by simp [(h x hx).2])
  · intro h
    unfold dailyBranch
    rw [h]

/-- C1 witness: the resolution characterisation instantiated on a header
set matching neither rule. -/
theorem c1_daily_resolution_witness :
    (daily_deliv_col (RawDf.mk ["FOO"] []).headers = none ↔
      ∀ c ∈ (RawDf.mk ["FOO"] []).headers, delivPerRule c = false ∧ pctRule c = false) ∧
    (daily_deliv_col (RawDf.mk ["FOO"] []).headers = none →
      dailyBranch (RawDf.mk ["FOO"] [])  = .skipped) :=
  c1_daily_resolution (RawDf.mk ["FOO"] [])

/-! ## C2: the 80-98 accumulation bucket -/

/-- C2 counterexample: two symbols tied at average 90 come out in their
encounter order ZZZ before AAA, not in the symbol-ascending order AAA
before ZZZ that the claim asserts for ties. -/
theorem c2_tie_counterexample :
    filtered_df [("ZZZ", some (90 : ℚ)), ("AAA", some 90)]
      = [("ZZZ", some 90), ("AAA", some 90)] ∧
    filtered_df [("ZZZ", some (90 : ℚ)), ("AAA", some 90)]
      ≠ [("AAA", some 90), ("ZZZ", some 90)] := by
  refine ⟨by decide, by decide⟩

/-- C2 (amended): the reported rows are exactly those whose average lies in
the closed band from 80 to 98 (80 and 98 included, 99 and 79.9 excluded; a
null average is excluded), ordered descending by the average; ties keep
their encounter order rather than being broken by symbol, and the result is
a deterministic function of the input. -/
theorem c2_filtered_df_bucket_and_order (rows : List ARow) (r : ARow) :
    (r ∈ filtered_df rows ↔ r ∈ rows ∧ inBucket r = true) ∧
    (filtered_df rows).Pairwise avgDesc ∧
    inBucket ("E80", some 80) = true ∧
    inBucket ("E98", some 98) = true ∧
    inBucket ("E99", some 99) = false ∧
    inBucket ("E799", some (mkRat 799 10)) = false ∧
    inBucket ("ENULL", none) = false :=
  ⟨mem_filtered_df, pairwise_filtered_df rows,
    by decide, by decide, by decide, by decide, rfl⟩

/-! ## C9: the daily path reads unparseable delivery as zero -/

/-- C9: in the daily path a delivery value that fails numeric coercion is
zero-filled, hence indistinguishable from a true 0 percent, and a row
carrying it can never appear in the 80-98 bucket. -/
theorem c9_unparsed_daily_is_zero (v : Value) (h : to_numeric v = none) :
    dailyDeliv v = 0 ∧ dailyDeliv v = dailyDeliv (.vnum 0) ∧
    ∀ (s : String) (rows : List ARow), (s, some (dailyDeliv v)) ∉ filtered_df rows := by
  have h0 : dailyDeliv v = 0 := by unfold dailyDeliv; rw [h]; rfl
  refine ⟨h0, by rw [h0]; rfl, ?_⟩
  intro s rows hmem
  have hb := (mem_filtered_df.mp hmem).2
  rw [h0] at hb
  unfold inBucket at hb
  simp only [Bool.and_eq_true, decide_eq_true_eq] at hb
  exact absurd hb.1 (by norm_num)

/-- C9 witness: instantiated at the unparseable cell "N/A". -/
theorem c9_unparsed_daily_is_zero_witness :
    to_numeric (Value.vstr "N/A") = none ∧
    (dailyDeliv (Value.vstr "N/A") = 0 ∧
      dailyDeliv (Value.vstr "N/A") = dailyDeliv (.vnum 0) ∧
      ∀ (s : String) (rows : List ARow),
        (s, some (dailyDeliv (Value.vstr "N/A"))) ∉ filtered_df rows) :=
  ⟨by decide, c9_unparsed_daily_is_zero _ (by decide)⟩

/-! ## C8: symbol normalization happens on the query, not the records -/

/-- C8 counterexample: a stored record with raw symbol "tcs " is not found
by the normalized exact-match query TCS, and a row whose symbol is empty is
not dropped: it still reaches the rendered bucket. -/
theorem c8_symbol_counterexample :
    lookupDaily [("tcs ", some (90 : ℚ))] (searchNormalize "tcs") = [] ∧
    ("", some (90 : ℚ)) ∈ filtered_df [("", some 90)] := by
  refine ⟨by decide, by decide⟩

/-- C8 (amended): only the user-entered ticker is uppercased and trimmed;
record symbols are stored raw and empty-symbol rows are kept, so an
exact-match lookup with the normalized query finds a stored record exactly
when its raw stored symbol already equals its normalized form. -/
theorem c8_lookup_needs_canonical (rows : List ARow) (r : ARow) (h : r ∈ rows) :
    r ∈ lookupDaily rows (searchNormalize r.1) ↔ r.1 = searchNormalize r.1 := by
  unfold lookupDaily
  rw [List.mem_filter]
  simp [h]

/-- C8 witness: a record already in canonical form is found by the
normalized query. -/
theorem c8_lookup_needs_canonical_witness :
    ("TCS", some (90 : ℚ)) ∈ [("TCS", some (90 : ℚ))] ∧
    (("TCS", some (90 : ℚ)) ∈
        lookupDaily [("TCS", some (90 : ℚ))] (searchNormalize "TCS") ↔
      "TCS" = searchNormalize "TCS") :=
  ⟨by decide, c8_lookup_needs_canonical [("TCS", some (90 : ℚ))] ("TCS", some (90 : ℚ)) (by decide)⟩

/-! ## C3: the trailing window is rows, not distinct dates -/

/-- C3 counterexample: with a duplicate row for (X, day 2), the code window
of size 2 covers the dates 2 and 2 (one distinct trading day, and day 1 is
pushed out), while the most recent 2 distinct trade dates are 1 and 2; so
duplicate rows for one (symbol, date) pair do change which days enter the
window. -/
theorem c3_window_counterexample :
    (symbolWindow [⟨"X", 1, some 70⟩, ⟨"X", 2, some 90⟩, ⟨"X", 2, some 92⟩] "X" 2).map
        HRow.tradeDate = [2, 2] ∧
    mostRecentDistinctDates [⟨"X", 1, some 70⟩, ⟨"X", 2, some 90⟩, ⟨"X", 2, some 92⟩] "X" 2
      = [1, 2] := by
  refine ⟨by decide, by decide⟩

/-- C3 (amended): the window is the last N rows of the per-symbol
date-sorted view (so weekend and holiday gaps are immaterial: only dates
with data are present, in ascending order), and this coincides with the
most recent N distinct trade dates exactly when the symbol has no duplicate
(symbol, date) rows. -/
theorem c3_window_is_last_rows (hist : List HRow) (s : String) (n : Nat)
    (h : ((symbolRows hist s).map HRow.tradeDate).Nodup) :
    (symbolWindow hist s n).map HRow.tradeDate = mostRecentDistinctDates hist s n ∧
    ((symbolRows hist s).map HRow.tradeDate).Pairwise (· ≤ ·) := by
  constructor
  · unfold symbolWindow mostRecentDistinctDates takeLast
    rw [List.dedup_eq_self.mpr h, List.length_map, List.map_drop]
  · exact (List.sorted_insertionSort dateAsc
      (hist.filter (fun r => r.symbol = s))).map HRow.tradeDate (fun a b hab => hab)

/-- C3 witness: on a duplicate-free two-day archive the window of size 1 is
the most recent distinct date. -/
theorem c3_window_is_last_rows_witness :
    ((symbolRows [⟨"X", 1, some 80⟩, ⟨"X", 2, some 90⟩] "X").map HRow.tradeDate).Nodup ∧
    ((symbolWindow [⟨"X", 1, some 80⟩, ⟨"X", 2, some 90⟩] "X" 1).map HRow.tradeDate
        = mostRecentDistinctDates [⟨"X", 1, some 80⟩, ⟨"X", 2, some 90⟩] "X" 1 ∧
      ((symbolRows [⟨"X", 1, some 80⟩, ⟨"X", 2, some 90⟩] "X").map HRow.tradeDate).Pairwise
        (· ≤ ·)) :=
  ⟨by decide, c3_window_is_last_rows [⟨"X", 1, some 80⟩, ⟨"X", 2, some 90⟩] "X" 1 (by decide)⟩

/-! ## C4: the trailing mean skips nulls and reports none when all-null -/

/-- C4: the trailing average is the arithmetic mean of the non-null window
values only (the sample window 80, 82, null, 78, 84 averages to 81), and a
window whose values are all null yields none, never 0. -/
theorem c4_trailing_mean_skips_nulls (hist : List HRow) (s : String) (n : Nat)
    (h : ∀ v ∈ (symbolWindow hist s n).map HRow.delivPer, v = none) :
    trailingAvg hist s n = none ∧
    trailingAvg [⟨"X", 1, some 80⟩, ⟨"X", 2, some 82⟩, ⟨"X", 3, none⟩,
      ⟨"X", 4, some 78⟩, ⟨"X", 5, some 84⟩] "X" 5 = some 81 := by
  constructor
  · unfold trailingAvg meanOpt
    have he : ((symbolWindow hist s n).map HRow.delivPer).filterMap id = [] :=
      List.filterMap_eq_nil_iff.mpr (fun a ha => by rw [h a ha]; rfl)
    rw [he]
    rfl
  · have hw : (symbolWindow [⟨"X", 1, some 80⟩, ⟨"X", 2, some 82⟩, ⟨"X", 3, none⟩,
        ⟨"X", 4, some 78⟩, ⟨"X", 5, some 84⟩] "X" 5).map HRow.delivPer
        = [some 80, some 82, none, some 78, some 84] := by decide
    unfold trailingAvg meanOpt
    rw [hw]
    have hf : ([some (80 : ℚ), some 82, none, some 78, some 84].filterMap id)
        = [80, 82, 78, 84] := by decide
    rw [hf]
    norm_num [List.sum_cons, List.sum_nil]

/-- C4 witness: an all-null window yields none. -/
theorem c4_trailing_mean_skips_nulls_witness :
    (∀ v ∈ (symbolWindow [⟨"Y", 1, none⟩, ⟨"Y", 2, none⟩] "Y" 2).map HRow.delivPer,
        v = none) ∧
    (trailingAvg [⟨"Y", 1, none⟩, ⟨"Y", 2, none⟩] "Y" 2 = none ∧
      trailingAvg [⟨"X", 1, some 80⟩, ⟨"X", 2, some 82⟩, ⟨"X", 3, none⟩,
        ⟨"X", 4, some 78⟩, ⟨"X", 5, some 84⟩] "X" 5 = some 81) :=
  ⟨by decide, c4_trailing_mean_skips_nulls [⟨"Y", 1, none⟩, ⟨"Y", 2, none⟩] "Y" 2 (by decide)⟩

/-! ## C6: the merge is append; dedup comes from whole-file replacement -/

/-- C6 counterexample: the in-memory merge of src/backfill.py is plain
concatenation, so merging the same one-row snapshot twice does not equal
merging it once and yields a duplicated (symbol, tradeDate) key. -/
theorem c6_merge_concat_counterexample :
    mergeConcat (mergeConcat [] [⟨"X", some 5⟩]) [⟨"X", some 5⟩]
      ≠ mergeConcat [] [⟨"X", some 5⟩] ∧
    ¬ (keysOf (mergeConcat (mergeConcat [] [⟨"X", some 5⟩]) [⟨"X", some 5⟩])).Nodup := by
  refine ⟨by decide, by decide⟩

/-- C6 (amended): a backfill run visits pairwise-distinct dates and stamps
every fetched row with its date, so as long as each fetched day lists each
symbol once the freshly built archive has no duplicate (symbol, tradeDate)
key; and publishing replaces the stored file wholesale, independent of its
previous content, so re-running cannot append duplicates: dedup comes from
replacement, not from an idempotent per-snapshot merge. -/
theorem c6_run_replaces_archive (fetch : Nat → List String) (dates : List Nat)
    (prev : List BRow) (h1 : dates.Nodup) (h2 : ∀ d, (fetch d).Nodup) :
    (keysOf (backfillRows fetch dates)).Nodup ∧
    publishReplace prev (backfillRows fetch dates) = backfillRows fetch dates := by
  refine ⟨?_, rfl⟩
  unfold keysOf backfillRows stampRows
  rw [List.map_flatMap]
  rw [List.nodup_flatMap]
  constructor
  · intro d _
    rw [List.map_map]
    exact (h2 d).map (fun a b hab => by
      simpa using congrArg Prod.fst hab)
  · refine h1.imp ?_
    intro a b hab x hx1 hx2
    simp only [List.map_map, List.mem_map, Function.comp] at hx1 hx2
    obtain ⟨s1, _, he1⟩ := hx1
    obtain ⟨s2, _, he2⟩ := hx2
    apply hab
    have := congrArg Prod.snd (he1.trans he2.symm)
    simpa using this

/-- C6 witness: a concrete two-day run with two symbols per day. -/
theorem c6_run_replaces_archive_witness :
    ([3, 4] : List Nat).Nodup ∧
    ((keysOf (backfillRows (fun _ => ["A", "B"]) [3, 4])).Nodup ∧
      publishReplace [⟨"Z", none⟩] (backfillRows (fun _ => ["A", "B"]) [3, 4])
        = backfillRows (fun _ => ["A", "B"]) [3, 4]) :=
  ⟨by decide, c6_run_replaces_archive (fun _ => ["A", "B"]) [3, 4] [⟨"Z", none⟩]
    (by decide) (fun _ => show (["A", "B"] : List String).Nodup by decide)⟩

/-! ## C10: the backfill requests weekdays and stamps every row -/

/-- C10: every requested date is a weekday within the trailing 365 calendar
days of today, and every row the run produces carries a non-null Trade_Date
stamp equal to the date it was fetched for. -/
theorem c10_backfill_weekday_stamped (today : Nat) (fetch : Nat → List String)
    (h : 365 ≤ today) :
    (∀ d ∈ requestedDates today, d % 7 < 5 ∧ today - 365 ≤ d ∧ d ≤ today) ∧
    (∀ r ∈ backfillRun fetch today, ∃ d ∈ requestedDates today, r.tradeDate = some d) := by
  constructor
  · intro d hd
    unfold requestedDates at hd
    rw [List.mem_filterMap] at hd
    obtain ⟨i, hi, hif⟩ := hd
    rw [List.mem_range] at hi
    by_cases hc : (today - 365 + i) % 7 < 5
    · rw [if_pos hc] at hif
      cases hif
      refine ⟨hc, Nat.le_add_right _ _, ?_⟩
      have hi365 : i ≤ 365 := Nat.lt_succ_iff.mp hi
      calc today - 365 + i ≤ today - 365 + 365 := Nat.add_le_add_left hi365 _
        _ = today := Nat.sub_add_cancel h
    · rw [if_neg hc] at hif
      exact absurd hif (by simp)
  · intro r hr
    unfold backfillRun backfillRows stampRows at hr
    rw [List.mem_flatMap] at hr
    obtain ⟨d, hd, hr2⟩ := hr
    rw [List.mem_map] at hr2
    obtain ⟨s, _, rfl⟩ := hr2
    exact ⟨d, hd, rfl⟩

/-- C10 witness: instantiated at day 365 with a constant one-symbol fetch. -/
theorem c10_backfill_weekday_stamped_witness :
    365 ≤ 365 ∧
    ((∀ d ∈ requestedDates 365, d % 7 < 5 ∧ 365 - 365 ≤ d ∧ d ≤ 365) ∧
      (∀ r ∈ backfillRun (fun _ => ["X"]) 365,
        ∃ d ∈ requestedDates 365, r.tradeDate = some d)) :=
  ⟨by decide, c10_backfill_weekday_stamped 365 (fun _ => ["X"]) (by decide)⟩

/-! ## C7: idempotence of the history normalization

Helper lemmas about trimming, header cleaning and the column steps. -/

lemma dropWhile_head_false {p : α → Bool} {l : List α} :
    ∀ c, (l.dropWhile p).head? = some c → p c = false := by
  induction l with
  | nil => intro c h; simp at h
  | cons a t ih =>
    intro c h
    rw [List.dropWhile_cons] at h
    by_cases hp : p a = true
    · rw [if_pos hp] at h
      exact ih c h
    · rw [if_neg hp] at h
      rw [List.head?_cons, Option.some_inj] at h
      rw [← h]
      exact Bool.eq_false_iff.mpr hp

lemma dropWhile_eq_self_of_head {p : α → Bool} {l : List α}
    (h : ∀ c, l.head? = some c → p c = false) : l.dropWhile p = l := by
  cases l with
  | nil => rfl
  | cons a t => simp [List.dropWhile_cons, h a rfl]

lemma getLast?_dropWhile {p : α → Bool} {l : List α} {c : α}
    (h : (l.dropWhile p).getLast? = some c) : l.getLast? = some c := by
  obtain ⟨t, ht⟩ := List.dropWhile_suffix (l := l) p
  have hne : l.dropWhile p ≠ [] := by
    intro he
    rw [he] at h
    simp at h
  rw [← ht, List.getLast?_append_of_ne_nil t hne]
  exact h

/-- Both ends of a list avoid the predicate. -/
def noEnds (p : α → Bool) (l : List α) : Prop :=
  (∀ c, l.head? = some c → p c = false) ∧ (∀ c, l.getLast? = some c → p c = false)

lemma trimChars_fix {l : List Char} (h : noEnds wsChar l) : trimChars l = l := by
  unfold trimChars
  rw [dropWhile_eq_self_of_head h.1]
  rw [dropWhile_eq_self_of_head
    (fun c hc => h.2 c (by rwa [List.head?_reverse] at hc))]
  exact List.reverse_reverse l

lemma noEnds_trimChars (l : List Char) : noEnds wsChar (trimChars l) := by
  unfold trimChars
  constructor
  · intro c hc
    rw [List.head?_reverse] at hc
    have h2 := getLast?_dropWhile hc
    rw [List.getLast?_reverse] at h2
    exact dropWhile_head_false c h2
  · intro c hc
    rw [List.getLast?_reverse] at hc
    exact dropWhile_head_false c hc

lemma mem_of_mem_trimChars {c : Char} {l : List Char} (h : c ∈ trimChars l) : c ∈ l := by
  unfold trimChars at h
  rw [List.mem_reverse] at h
  have h2 := (List.dropWhile_suffix wsChar).subset h
  rw [List.mem_reverse] at h2
  exact (List.dropWhile_suffix wsChar).subset h2

lemma toList_mk (l : List Char) : String.toList ⟨l⟩ = l := rfl

lemma cleanName_idem (s : String) : cleanName (cleanName s) = cleanName s := by
  unfold cleanName
  rw [toList_mk]
  have hq : (trimChars (s.toList.filter (fun c => c ≠ '"'))).filter (fun c => c ≠ '"')
      = trimChars (s.toList.filter (fun c => c ≠ '"')) := by
    apply List.filter_eq_self.mpr
    intro a ha
    exact (List.mem_filter.mp (mem_of_mem_trimChars ha)).2
  rw [hq, trimChars_fix (noEnds_trimChars _)]

lemma headersOf_cleanCols (df : Df) :
    headersOf (cleanCols df) = (headersOf df).map cleanName := by
  unfold headersOf cleanCols
  rw [List.map_map, List.map_map]
  rfl

lemma hasCol_iff {df : Df} {n : String} : hasCol df n = true ↔ n ∈ headersOf df := by
  unfold hasCol headersOf
  rw [List.any_eq_true]
  constructor
  · rintro ⟨c, hc, he⟩
    rw [List.mem_map]
    exact ⟨c, hc, by simpa using he⟩
  · rw [List.mem_map]
    rintro ⟨c, hc, he⟩
    exact ⟨c, hc, by simp [he]⟩

lemma mem_headersOf_setCol {m : String} {df : Df} {n : String} {v : List Value}
    (h : m ∈ headersOf (setCol df n v)) : m ∈ headersOf df ∨ m = n := by
  induction df with
  | nil =>
    unfold setCol headersOf at h
    simp at h
    right
    exact h
  | cons c t ih =>
    unfold setCol at h
    by_cases hc : c.1 = n
    · rw [if_pos hc] at h
      unfold headersOf at h ⊢
      rw [List.map_cons, List.mem_cons] at h ⊢
      rcases h with h | h
      · right; exact h
      · left; right; exact h
    · rw [if_neg hc] at h
      unfold headersOf at h ⊢
      rw [List.map_cons, List.mem_cons] at h ⊢
      rcases h with h | h
      · left; left; exact h
      · rcases ih h with h2 | h2
        · left; right; exact h2
        · right; exact h2

lemma findCol_setCol_self (df : Df) (n : String) (v : List Value) :
    findCol (setCol df n v) n = some (n, v) := by
  induction df with
  | nil => simp [setCol, findCol]
  | cons c t ih =>
    unfold setCol
    by_cases hc : c.1 = n
    · rw [if_pos hc]
      unfold findCol
      rw [List.find?_cons_of_pos _ (by simp)]
    · rw [if_neg hc]
      unfold findCol at ih ⊢
      rw [List.find?_cons_of_neg _ (by simp [hc])]
      exact ih

lemma setCol_eq_self {df : Df} {n : String} {v : List Value}
    (h : findCol df n = some (n, v)) : setCol df n v = df := by
  induction df with
  | nil => simp [findCol] at h
  | cons c t ih =>
    unfold findCol at h ih
    by_cases hc : c.1 = n
    · rw [List.find?_cons_of_pos _ (by simp [hc])] at h
      have h2 := Option.some_inj.mp h
      unfold setCol
      rw [if_pos hc, ← h2]
    · rw [List.find?_cons_of_neg _ (by simp [hc])] at h
      unfold setCol
      rw [if_neg hc, ih h]

lemma hasCol_of_findCol {df : Df} {n : String} {c : String × List Value}
    (h : findCol df n = some c) : hasCol df n = true := by
  unfold findCol at h
  unfold hasCol
  rw [List.any_eq_true]
  refine ⟨c, List.mem_of_find?_eq_some h, ?_⟩
  have h2 := List.find?_some h
  exact h2

lemma renameStep_eq_of_none {df : Df} {cands : List String} {t : String}
    (h : cands.find? (hasCol df) = none) : renameStep df cands t = df := by
  unfold renameStep
  rw [h]

lemma renameStep_eq_of_found {df : Df} {cands : List String} {t cc : String}
    (h : cands.find? (hasCol df) = some cc) :
    renameStep df cands t = df.map (fun c => (if c.1 = cc then t else c.1, c.2)) := by
  unfold renameStep
  rw [h]

lemma renameStep_self {df : Df} {cands : List String} (t : String)
    (h : cands.find? (hasCol df) = some t) : renameStep df cands t = df := by
  rw [renameStep_eq_of_found h]
  have hp : ∀ c : String × List Value, (if c.1 = t then t else c.1, c.2) = c := by
    intro c
    by_cases hc : c.1 = t
    · rw [if_pos hc, ← hc]
    · rw [if_neg hc]
  calc df.map (fun c => (if c.1 = t then t else c.1, c.2))
      = df.map id := List.map_congr_left (fun a _ => hp a)
    _ = df := List.map_id df

lemma mem_headersOf_renameStep {m : String} {df : Df} {cands : List String} {t : String}
    (h : m ∈ headersOf (renameStep df cands t)) : m ∈ headersOf df ∨ m = t := by
  unfold renameStep at h
  cases hf : cands.find? (hasCol df) with
  | none =>
    rw [hf] at h
    left
    exact h
  | some cc =>
    rw [hf] at h
    unfold headersOf at h ⊢
    rw [List.map_map, List.mem_map] at h
    obtain ⟨c, hc, he⟩ := h
    simp only [Function.comp] at he
    by_cases h1 : c.1 = cc
    · right
      rw [← he, if_pos h1]
    · left
      rw [List.mem_map]
      exact ⟨c, hc, by rw [← he, if_neg h1]⟩

lemma not_mem_headersOf_rename_cc {df : Df} {cands : List String} {t cc : String}
    (hne : t ≠ cc) (h : cands.find? (hasCol df) = some cc) :
    cc ∉ headersOf (renameStep df cands t) := by
  rw [renameStep_eq_of_found h]
  unfold headersOf
  rw [List.map_map, List.mem_map]
  rintro ⟨c, hc, he⟩
  simp only [Function.comp] at he
  by_cases h1 : c.1 = cc
  · rw [if_pos h1] at he
    exact hne he
  · rw [if_neg h1] at he
    exact h1 he

lemma findCol_renameStep {df : Df} {cands : List String} {t n : String}
    (ht : t ≠ n) (hcands : ∀ c ∈ cands, c ≠ n) :
    findCol (renameStep df cands t) n = findCol df n := by
  unfold renameStep
  cases hf : cands.find? (hasCol df) with
  | none => rfl
  | some cc =>
    have hccn : cc ≠ n := hcands cc (List.mem_of_find?_eq_some hf)
    show findCol (df.map (fun c => (if c.1 = cc then t else c.1, c.2))) n = findCol df n
    clear hf
    induction df with
    | nil => rfl
    | cons c tl ih =>
      rw [List.map_cons]
      unfold findCol at ih ⊢
      by_cases h1 : c.1 = n
      · have h2 : ¬ c.1 = cc := by
          rw [h1]
          exact fun he => hccn he.symm
        have hpm : (if c.1 = cc then t else c.1) = n := by
          rw [if_neg h2]
          exact h1
        rw [List.find?_cons_of_pos _ (by
            show (fun x : String × List Value => decide (x.1 = n))
              (if c.1 = cc then t else c.1, c.2) = true
            exact decide_eq_true hpm),
          List.find?_cons_of_pos _ (by
            show (fun x : String × List Value => decide (x.1 = n)) c = true
            exact decide_eq_true h1)]
        rw [if_neg h2]
      · rw [List.find?_cons_of_neg _ ?_, List.find?_cons_of_neg _ (by simp [h1])]
        · exact ih
        · intro hcontra
          have hx : ((if c.1 = cc then t else c.1) = n) := of_decide_eq_true hcontra
          by_cases h2 : c.1 = cc
          · rw [if_pos h2] at hx
            exact ht hx
          · rw [if_neg h2] at hx
            exact h1 hx

lemma dateStep_eq_of_none {df : Df} (h : dateCandidates.find? (hasCol df) = none) :
    dateStep df = df := by
  unfold dateStep
  rw [h]

lemma dateStep_eq_of_found {df : Df} {dc : String}
    (h : dateCandidates.find? (hasCol df) = some dc) :
    dateStep df = setCol df "Trade_Date" (parsedColOf df dc) := by
  unfold dateStep
  rw [h]

lemma mem_headers_dateStep {df : Df} {m : String} (h : m ∈ headersOf (dateStep df)) :
    m ∈ headersOf df ∨ m = "Trade_Date" := by
  unfold dateStep at h
  cases hf : dateCandidates.find? (hasCol df) with
  | none =>
    rw [hf] at h
    left
    exact h
  | some dc =>
    rw [hf] at h
    exact mem_headersOf_setCol h

lemma parseDateVal_idem (v : Value) : parseDateVal (parseDateVal v) = parseDateVal v := by
  cases v with
  | vstr s => cases h : parseDateStr s <;> simp [parseDateVal, h]
  | vnum q => rfl
  | vdate d => rfl
  | vnull => rfl

lemma map_parseDateVal_idem (l : List Value) :
    (l.map parseDateVal).map parseDateVal = l.map parseDateVal := by
  rw [List.map_map]
  exact List.map_congr_left (fun a _ => parseDateVal_idem a)

lemma parsedColOf_eq {df : Df} {n : String} {v : List Value}
    (h : findCol df n = some (n, v)) : parsedColOf df n = v.map parseDateVal := by
  unfold parsedColOf
  rw [h]
  rfl

lemma cleanName_mem_norm {df : Df} {m : String}
    (h : m ∈ headersOf (load_history_normalize df)) : cleanName m = m := by
  unfold load_history_normalize at h
  rcases mem_headersOf_renameStep h with h | rfl
  · rcases mem_headersOf_renameStep h with h | rfl
    · rcases mem_headers_dateStep h with h | rfl
      · rw [headersOf_cleanCols, List.mem_map] at h
        obtain ⟨x, _, rfl⟩ := h
        exact cleanName_idem x
      · decide
    · decide
  · decide

lemma cleanCols_norm_fix (df : Df) :
    cleanCols (load_history_normalize df) = load_history_normalize df := by
  unfold cleanCols
  have hp : ∀ c ∈ load_history_normalize df, (cleanName c.1, c.2) = c := by
    intro c hc
    have hm : c.1 ∈ headersOf (load_history_normalize df) := by
      unfold headersOf
      rw [List.mem_map]
      exact ⟨c, hc, rfl⟩
    rw [cleanName_mem_norm hm]
  calc (load_history_normalize df).map (fun c => (cleanName c.1, c.2))
      = (load_history_normalize df).map id := List.map_congr_left hp
    _ = load_history_normalize df := List.map_id _

lemma dateStep_norm_fix (df : Df) :
    dateStep (load_history_normalize df) = load_history_normalize df := by
  cases hf : dateCandidates.find? (hasCol (cleanCols df)) with
  | none =>
    have hN : dateCandidates.find? (hasCol (load_history_normalize df)) = none := by
      apply List.find?_eq_none.mpr
      intro x hx hcol
      have hxh := hasCol_iff.mp hcol
      unfold load_history_normalize at hxh
      rcases mem_headersOf_renameStep hxh with h2 | h2
      · rcases mem_headersOf_renameStep h2 with h3 | h3
        · rw [dateStep_eq_of_none hf] at h3
          exact absurd (hasCol_iff.mpr h3) (List.find?_eq_none.mp hf x hx)
        · rw [h3] at hx
          exact absurd hx (by decide)
      · rw [h2] at hx
        exact absurd hx (by decide)
    exact dateStep_eq_of_none hN
  | some dc =>
    have hsplit : load_history_normalize df
        = renameStep (renameStep (setCol (cleanCols df) "Trade_Date"
            (parsedColOf (cleanCols df) dc)) ["CLOSE_PR", "CLOSE_PRICE"] "CLOSE_PRICE")
          ["DELIV_PER", "DELIVERY_PER"] "DELIV_PER" := by
      unfold load_history_normalize
      rw [dateStep_eq_of_found hf]
    have hM : findCol (load_history_normalize df) "Trade_Date"
        = some ("Trade_Date", parsedColOf (cleanCols df) dc) := by
      rw [hsplit]
      rw [findCol_renameStep (by decide) (by decide)]
      rw [findCol_renameStep (by decide) (by decide)]
      exact findCol_setCol_self _ _ _
    have hTD : hasCol (load_history_normalize df) "Trade_Date" = true :=
      hasCol_of_findCol hM
    have hfN : dateCandidates.find? (hasCol (load_history_normalize df))
        = some "Trade_Date" := List.find?_cons_of_pos _ hTD
    rw [dateStep_eq_of_found hfN, parsedColOf_eq hM]
    have hidem : (parsedColOf (cleanCols df) dc).map parseDateVal
        = parsedColOf (cleanCols df) dc := by
      unfold parsedColOf
      exact map_parseDateVal_idem _
    rw [hidem]
    exact setCol_eq_self hM

lemma closeRename_norm_fix (df : Df) :
    renameStep (load_history_normalize df) ["CLOSE_PR", "CLOSE_PRICE"] "CLOSE_PRICE"
      = load_history_normalize df := by
  have hnoCP : "CLOSE_PR" ∉ headersOf (load_history_normalize df) := by
    intro hmem
    unfold load_history_normalize at hmem
    rcases mem_headersOf_renameStep hmem with h2 | h2
    · cases hfc : (["CLOSE_PR", "CLOSE_PRICE"] : List String).find?
          (hasCol (dateStep (cleanCols df))) with
      | none =>
        rw [renameStep_eq_of_none hfc] at h2
        exact absurd (hasCol_iff.mpr h2)
          (List.find?_eq_none.mp hfc "CLOSE_PR" (by decide))
      | some cc =>
        have hcases : cc = "CLOSE_PR" ∨ cc = "CLOSE_PRICE" := by
          simpa using List.mem_of_find?_eq_some hfc
        rcases hcases with rfl | rfl
        · exact not_mem_headersOf_rename_cc (by decide) hfc h2
        · have hno : ¬ hasCol (dateStep (cleanCols df)) "CLOSE_PR" = true := by
            intro hcp
            have hfind := List.find?_cons_of_pos (["CLOSE_PRICE"]) hcp
            rw [hfind] at hfc
            exact absurd (Option.some_inj.mp hfc) (by decide)
          rw [renameStep_self _ hfc] at h2
          exact hno (hasCol_iff.mpr h2)
    · exact absurd h2 (by decide)
  cases hfN : (["CLOSE_PR", "CLOSE_PRICE"] : List String).find?
      (hasCol (load_history_normalize df)) with
  | none => exact renameStep_eq_of_none hfN
  | some cc =>
    have hcases : cc = "CLOSE_PR" ∨ cc = "CLOSE_PRICE" := by
      simpa using List.mem_of_find?_eq_some hfN
    rcases hcases with rfl | rfl
    · exact absurd (hasCol_iff.mp (List.find?_some hfN)) hnoCP
    · exact renameStep_self _ hfN

lemma delivRename_norm_fix (df : Df) :
    renameStep (load_history_normalize df) ["DELIV_PER", "DELIVERY_PER"] "DELIV_PER"
      = load_history_normalize df := by
  have hinv : "DELIVERY_PER" ∉ headersOf (load_history_normalize df) ∨
      "DELIV_PER" ∈ headersOf (load_history_normalize df) := by
    unfold load_history_normalize
    cases hfd : (["DELIV_PER", "DELIVERY_PER"] : List String).find?
        (hasCol (renameStep (dateStep (cleanCols df))
          ["CLOSE_PR", "CLOSE_PRICE"] "CLOSE_PRICE")) with
    | none =>
      left
      rw [renameStep_eq_of_none hfd]
      intro hmem
      exact absurd (hasCol_iff.mpr hmem)
        (List.find?_eq_none.mp hfd "DELIVERY_PER" (by decide))
    | some cc =>
      have hcases : cc = "DELIV_PER" ∨ cc = "DELIVERY_PER" := by
        simpa using List.mem_of_find?_eq_some hfd
      rcases hcases with rfl | rfl
      · right
        rw [renameStep_self _ hfd]
        exact hasCol_iff.mp (List.find?_some hfd)
      · left
        exact not_mem_headersOf_rename_cc (by decide) hfd
  cases hfN : (["DELIV_PER", "DELIVERY_PER"] : List String).find?
      (hasCol (load_history_normalize df)) with
  | none => exact renameStep_eq_of_none hfN
  | some cc =>
    have hcases : cc = "DELIV_PER" ∨ cc = "DELIVERY_PER" := by
      simpa using List.mem_of_find?_eq_some hfN
    rcases hcases with rfl | rfl
    · exact renameStep_self _ hfN
    · have hpresent := hasCol_iff.mp (List.find?_some hfN)
      have habsent : "DELIV_PER" ∉ headersOf (load_history_normalize df) := by
        intro hmem
        have hfind := List.find?_cons_of_pos (["DELIVERY_PER"]) (hasCol_iff.mpr hmem)
        rw [hfind] at hfN
        exact absurd (Option.some_inj.mp hfN) (by decide)
      rcases hinv with h | h
      · exact absurd hpresent h
      · exact absurd h habsent

/-- C7: the history normalization is idempotent: header cleaning is
idempotent character-wise, the date, close-price and delivery renames reach
a fixed point after one application, and re-coercing an already-coerced
date column changes nothing, so applying the normalizer twice equals
applying it once. The hypothesis restricts to dataframes whose cleaned
headers are pairwise distinct, which is how read_csv delivers them (it
mangles duplicate headers); on such dataframes the first-match column
access of the model coincides with pandas. -/
theorem c7_normalize_idem (df : Df) (h : (headersOf (cleanCols df)).Nodup) :
    load_history_normalize (load_history_normalize df) = load_history_normalize df := by
  calc load_history_normalize (load_history_normalize df)
      = renameStep (renameStep (dateStep (cleanCols (load_history_normalize df)))
          ["CLOSE_PR", "CLOSE_PRICE"] "CLOSE_PRICE")
          ["DELIV_PER", "DELIVERY_PER"] "DELIV_PER" := rfl
    _ = renameStep (renameStep (dateStep (load_history_normalize df))
          ["CLOSE_PR", "CLOSE_PRICE"] "CLOSE_PRICE")
          ["DELIV_PER", "DELIVERY_PER"] "DELIV_PER" := by
        rw [cleanCols_norm_fix]
    _ = renameStep (renameStep (load_history_normalize df)
          ["CLOSE_PR", "CLOSE_PRICE"] "CLOSE_PRICE")
          ["DELIV_PER", "DELIVERY_PER"] "DELIV_PER" := by
        rw [dateStep_norm_fix]
    _ = renameStep (load_history_normalize df) ["DELIV_PER", "DELIVERY_PER"] "DELIV_PER" := by
        rw [closeRename_norm_fix]
    _ = load_history_normalize df := delivRename_norm_fix df

/-- C7 witness: a four-column raw frame with a quoted header, a DATE1 date
column, a CLOSE_PR price column and a DELIV_PER column. -/
theorem c7_normalize_idem_witness :
    (headersOf (cleanCols [("\"Symbol\"", [Value.vstr "X"]),
        ("DATE1", [Value.vstr "2024-01-05"]), ("CLOSE_PR", [Value.vnum 10]),
        ("DELIV_PER", [Value.vstr "65.2"])])).Nodup ∧
    load_history_normalize (load_history_normalize [("\"Symbol\"", [Value.vstr "X"]),
        ("DATE1", [Value.vstr "2024-01-05"]), ("CLOSE_PR", [Value.vnum 10]),
        ("DELIV_PER", [Value.vstr "65.2"])])
      = load_history_normalize [("\"Symbol\"", [Value.vstr "X"]),
        ("DATE1", [Value.vstr "2024-01-05"]), ("CLOSE_PR", [Value.vnum 10]),
        ("DELIV_PER", [Value.vstr "65.2"])] :=
  ⟨by decide, c7_normalize_idem [("\"Symbol\"", [Value.vstr "X"]),
    ("DATE1", [Value.vstr "2024-01-05"]), ("CLOSE_PR", [Value.vnum 10]),
    ("DELIV_PER", [Value.vstr "65.2"])] (by decide)⟩

end StockDash
